import Mathlib

/-
  Verification of the PDF Scanner App history/persistence engine
  (me-suzy/PDFScannerApp, src/PDF Scanner App/app.py).

  The Python source is shallowly embedded: strings are Lean `String`s
  manipulated through explicit code-point-level functions (Python string
  comparison, slicing, lower-casing), numbers are exact rationals with
  Python's banker's rounding (`round`) made explicit, and each Flask
  route becomes a pure function from its inputs and the persisted
  history document to a response value.
-/

namespace PDFScanner

/-! ### Python string primitives (code-point level) -/

/-- Lexicographic `≤` on code-point lists, as Python compares strings. -/
def lexLe : List Char → List Char → Bool
  | [], _ => true
  | _ :: _, [] => false
  | a :: as, b :: bs =>
    if a.toNat < b.toNat then true
    else if b.toNat < a.toNat then false
    else lexLe as bs

/-- Python `a <= b` on strings. -/
def strLe (a b : String) : Bool := lexLe a.data b.data

/-- Python slicing `s[:n]`. -/
def pyTake (s : String) (n : ℕ) : String := ⟨s.data.take n⟩

/-- ASCII lower-casing of one character (the only case relevant here). -/
def lowerChar (c : Char) : Char :=
  if 'A' ≤ c ∧ c ≤ 'Z' then Char.ofNat (c.toNat + 32) else c

/-- Python `s.lower()` (ASCII fragment). -/
def pyLower (s : String) : String := ⟨s.data.map lowerChar⟩

/-- Python `s.endswith(suffix)`. -/
def pyEndsWith (s suffix : String) : Bool := decide (suffix.data <:+ s.data)

/-- Python `needle in hay` for strings. -/
def pySubstr (needle hay : String) : Bool := decide (needle.data <:+: hay.data)

/-- The date part `ts[:10]` of an ISO timestamp, as the code computes it. -/
def tsDate (ts : String) : String := pyTake ts 10

/-- The month part `ts[:7]` of an ISO timestamp. -/
def tsMonth (ts : String) : String := pyTake ts 7

/-! ### Python `round` (banker's rounding) on exact rationals -/

/-- Round-half-even to an integer, as Python's `round` behaves on exact
values. -/
def rhe (q : ℚ) : ℤ :=
  if q - ⌊q⌋ < 1/2 then ⌊q⌋
  else if 1/2 < q - ⌊q⌋ then ⌊q⌋ + 1
  else if Even ⌊q⌋ then ⌊q⌋ else ⌊q⌋ + 1

/-- Python `round(q, k)`. -/
def pyRound (k : ℕ) (q : ℚ) : ℚ := ((rhe (q * 10 ^ k) : ℤ) : ℚ) / 10 ^ k

/-! ### Timestamp formatting (`datetime.now()` snapshots) -/

/-- Decimal digits of a natural number, fuel-driven so that the kernel
can evaluate it. -/
def numCharsAux : ℕ → ℕ → List Char
  | 0, _ => []
  | fuel + 1, n =>
    if n < 10 then [Nat.digitChar n]
    else numCharsAux fuel (n / 10) ++ [Nat.digitChar (n % 10)]

/-- Decimal representation of `n`, as Python `str(n)` for naturals. -/
def numChars (n : ℕ) : List Char := numCharsAux (n + 1) n

/-- Zero-padding to two digits (`%02d`). -/
def pad2 (n : ℕ) : List Char := if n < 10 then '0' :: numChars n else numChars n

/-- Zero-padding to four digits (`%04d`), as `isoformat` prints years. -/
def pad4 (n : ℕ) : List Char :=
  if n < 10 then '0' :: '0' :: '0' :: numChars n
  else if n < 100 then '0' :: '0' :: numChars n
  else if n < 1000 then '0' :: numChars n
  else numChars n

/-- A `datetime.now()` snapshot. -/
structure PyDateTime where
  year : ℕ
  month : ℕ
  day : ℕ
  hour : ℕ
  minute : ℕ
  second : ℕ
deriving DecidableEq

/-- `now.isoformat(timespec="seconds")`. -/
def isoChars (dt : PyDateTime) : List Char :=
  pad4 dt.year ++ '-' :: pad2 dt.month ++ '-' :: pad2 dt.day ++
    'T' :: pad2 dt.hour ++ ':' :: pad2 dt.minute ++ ':' :: pad2 dt.second

def isoTimestamp (dt : PyDateTime) : String := ⟨isoChars dt⟩

/-- `now.strftime("%Y-%m-%d")` (`%Y` prints the year unpadded). -/
def strftimeDate (dt : PyDateTime) : String :=
  ⟨numChars dt.year ++ '-' :: pad2 dt.month ++ '-' :: pad2 dt.day⟩

/-! ### Data model (app.py top level) -/

/-- `COST_PER_PAGE = 2000.0 / (700 * 30)`, a module-level constant. -/
def COST_PER_PAGE : ℚ := 2000 / (700 * 30)

def MAX_FILES : ℕ := 20

def MAX_FILE_SIZE_MB : ℕ := 100

/-- The persisted `settings` object. -/
structure Settings where
  monthly_income : ℚ
  daily_pages : ℤ
  days_per_month : ℤ
deriving DecidableEq

def defaultSettings : Settings := ⟨2000, 700, 30⟩

/-- One upload record, as stored in `history.json`. -/
structure Entry where
  id : String
  date : String
  timestamp : String
  filename : String
  saved_as : String
  pages : ℕ
  cost : ℚ
  size_bytes : ℕ
deriving DecidableEq

/-- The persisted history document `{uploads, settings}`. -/
structure History where
  uploads : List Entry
  settings : Settings
deriving DecidableEq

/-- `load_history()`: the persisted document if present, otherwise the
empty upload list with default settings. -/
def load_history : Option History → History
  | some doc => doc
  | none => ⟨[], ⟨2000, 700, 30⟩⟩

/-- The cost rate the settings endpoint derives:
`monthly_income / (daily_pages * days_per_month)`. -/
def settingsRate (s : Settings) : ℚ :=
  s.monthly_income / ((s.daily_pages * s.days_per_month : ℤ) : ℚ)

/-! ### Upload route (`/api/upload`) -/

/-- One incoming multipart file: its user-supplied filename (empty when
missing), the fresh id `uuid.uuid4().hex[:12]` generated for it, its
byte size on disk and the page count the external PDF reader returns
for it (0 on a read failure). -/
structure InFile where
  filename : String
  fileId : String
  sizeBytes : ℕ
  pages : ℕ
deriving DecidableEq

/-- One element of the per-file `results` array. -/
inductive FileResult where
  | rejected (filename msg : String)
  | accepted (filename : String) (pages : ℕ) (cost : ℚ) (size_mb : ℚ) (id : String)
deriving DecidableEq

def resultPages : FileResult → ℕ
  | .rejected _ _ => 0
  | .accepted _ p _ _ _ => p

def resultCost : FileResult → ℚ
  | .rejected _ _ => 0
  | .accepted _ _ c _ _ => c

/-- The per-file body of the upload loop: the validation chain and, on
success, the constructed record. -/
def fileStep (names : List String) (now : PyDateTime) (f : InFile) :
    Option Entry × FileResult :=
  if f.filename = "" ∨ ¬ pyEndsWith (pyLower f.filename) ".pdf" = true then
    (none, .rejected (if f.filename = "" then "unknown" else f.filename) "Nu este PDF")
  else if f.filename ∈ names then
    (none, .rejected f.filename "Duplicat - exista deja in istoric")
  else if f.sizeBytes > MAX_FILE_SIZE_MB * 1024 * 1024 then
    (none, .rejected f.filename "Fisier prea mare (max 100MB)")
  else
    let cost := pyRound 4 ((f.pages : ℚ) * COST_PER_PAGE)
    (some ⟨f.fileId, strftimeDate now, isoTimestamp now, f.filename,
       f.fileId ++ "_" ++ f.filename, f.pages, cost, f.sizeBytes⟩,
     .accepted f.filename f.pages cost
       (pyRound 2 ((f.sizeBytes : ℚ) / 1048576)) f.fileId)

/-- The upload loop over the batch: appended records and the results
array, in file order.  The duplicate check always uses `names`, the
snapshot of stored filenames taken at batch start. -/
def processFiles (names : List String) (now : PyDateTime) :
    List InFile → List Entry × List FileResult
  | [] => ([], [])
  | f :: rest =>
    let r := fileStep names now f
    let p := processFiles names now rest
    match r.1 with
    | some e => (e :: p.1, r.2 :: p.2)
    | none => (p.1, r.2 :: p.2)

inductive UploadResp where
  | badRequest
  | ok (hist : History) (results : List FileResult)
      (total_pages : ℕ) (total_cost : ℚ) (cost_per_page : ℚ)
deriving DecidableEq

/-- `POST /api/upload`. -/
def upload_files (now : PyDateTime) (files : List InFile) (st : History) :
    UploadResp :=
  if files.length > MAX_FILES then .badRequest
  else
    let pr := processFiles (st.uploads.map (fun u => u.filename)) now files
    .ok ⟨st.uploads ++ pr.1, st.settings⟩ pr.2
      ((pr.2.map resultPages).sum)
      (pyRound 4 ((pr.2.map resultCost).sum))
      (pyRound 6 COST_PER_PAGE)

/-! ### History route (`/api/history`) -/

/-- The `from` query filter; Python treats a missing or empty value as
"no filter". -/
def filterFrom (dateFrom : Option String) (uploads : List Entry) : List Entry :=
  match dateFrom with
  | some d => if d = "" then uploads
      else uploads.filter (fun u => strLe d (tsDate u.timestamp))
  | none => uploads

/-- The `to` query filter. -/
def filterTo (dateTo : Option String) (uploads : List Entry) : List Entry :=
  match dateTo with
  | some d => if d = "" then uploads
      else uploads.filter (fun u => strLe (tsDate u.timestamp) d)
  | none => uploads

/-- The `search` query filter: case-insensitive substring match on the
filename, skipped when the lower-cased search string is empty. -/
def filterSearch (search : Option String) (uploads : List Entry) : List Entry :=
  let s := pyLower (search.getD "")
  if s = "" then uploads
  else uploads.filter (fun u => pySubstr s (pyLower u.filename))

structure HistoryResp where
  uploads : List Entry
  total_pages : ℕ
  total_cost : ℚ
  total_files : ℕ
  cost_per_page : ℚ
deriving DecidableEq

/-- `GET /api/history?from&to&search`. -/
def get_history (st : History) (dateFrom dateTo search : Option String) :
    HistoryResp :=
  let ups := filterSearch search (filterTo dateTo (filterFrom dateFrom st.uploads))
  let sorted := ups.mergeSort (fun a b => strLe b.timestamp a.timestamp)
  ⟨sorted, (sorted.map (fun u => u.pages)).sum,
    pyRound 4 ((sorted.map (fun u => u.cost)).sum),
    sorted.length, pyRound 6 COST_PER_PAGE⟩

/-! ### Daily summary route (`/api/daily-summary`) -/

/-- One entry of the `days` array. -/
structure DayEntry where
  date : String
  files : ℕ
  pages : ℕ
  cost : ℚ
  filenames : List String
deriving DecidableEq

/-- Adding one upload to the per-day accumulator dict (insertion
ordered, as a Python dict is). -/
def dailyAdd (u : Entry) : List DayEntry → List DayEntry
  | [] => [⟨tsDate u.timestamp, 1, u.pages, u.cost, [u.filename]⟩]
  | e :: rest =>
    if e.date = tsDate u.timestamp then
      ⟨e.date, e.files + 1, e.pages + u.pages, e.cost + u.cost,
        e.filenames ++ [u.filename]⟩ :: rest
    else e :: dailyAdd u rest

/-- `GET /api/daily-summary?from&to`: the `days` array. -/
def daily_summary (st : History) (dateFrom dateTo : Option String) :
    List DayEntry :=
  let ups := filterTo dateTo (filterFrom dateFrom st.uploads)
  let acc := ups.foldl (fun acc u => dailyAdd u acc) []
  let acc := acc.map (fun e => { e with cost := pyRound 4 e.cost })
  acc.mergeSort (fun a b => strLe b.date a.date)

/-! ### Monthly summary route (`/api/monthly-summary`) -/

/-- The in-progress per-month accumulator; `days` models the
`days_active` set of distinct dates (only its size is ever emitted). -/
structure MonthAcc where
  month : String
  files : ℕ
  pages : ℕ
  cost : ℚ
  days : List String
deriving DecidableEq

/-- One entry of the emitted `months` array. -/
structure MonthEntry where
  month : String
  files : ℕ
  pages : ℕ
  cost : ℚ
  days_active : ℕ
deriving DecidableEq

/-- Adding one upload to the per-month accumulator dict. -/
def monthlyAdd (u : Entry) : List MonthAcc → List MonthAcc
  | [] => [⟨tsMonth u.timestamp, 1, u.pages, u.cost, [tsDate u.timestamp]⟩]
  | e :: rest =>
    if e.month = tsMonth u.timestamp then
      ⟨e.month, e.files + 1, e.pages + u.pages, e.cost + u.cost,
        if tsDate u.timestamp ∈ e.days then e.days
        else e.days ++ [tsDate u.timestamp]⟩ :: rest
    else e :: monthlyAdd u rest

/-- `GET /api/monthly-summary`: the `months` array (all records,
unfiltered, sorted by month descending). -/
def monthly_summary (st : History) : List MonthEntry :=
  let acc := st.uploads.foldl (fun acc u => monthlyAdd u acc) []
  (acc.mergeSort (fun a b => strLe b.month a.month)).map
    (fun e => ⟨e.month, e.files, e.pages, pyRound 4 e.cost, e.days.length⟩)

/-! ### Stats route (`/api/stats`) -/

structure PeriodStat where
  files : ℕ
  pages : ℕ
  cost : ℚ
deriving DecidableEq

def periodOf (ups : List Entry) : PeriodStat :=
  ⟨ups.length, (ups.map (fun u => u.pages)).sum,
    pyRound 4 ((ups.map (fun u => u.cost)).sum)⟩

structure StatsResp where
  today : PeriodStat
  week : PeriodStat
  month : PeriodStat
  total : PeriodStat
  cost_per_page : ℚ
deriving DecidableEq

/-- `GET /api/stats`.  The three date strings are the values the code
derives from the wall clock: today's date, the date seven days ago and
the first day of the current month. -/
def get_stats (st : History) (today weekAgo monthStart : String) : StatsResp :=
  ⟨periodOf (st.uploads.filter (fun u => decide (tsDate u.timestamp = today))),
   periodOf (st.uploads.filter (fun u => strLe weekAgo (tsDate u.timestamp))),
   periodOf (st.uploads.filter (fun u => strLe monthStart (tsDate u.timestamp))),
   periodOf st.uploads,
   pyRound 6 COST_PER_PAGE⟩

/-! ### Delete routes -/

inductive DeleteResp where
  | notFound
  | ok (hist : History)
deriving DecidableEq

/-- `DELETE /api/delete/{id}`. -/
def delete_upload (uploadId : String) (st : History) : DeleteResp :=
  match st.uploads.find? (fun u => decide (u.id = uploadId)) with
  | none => .notFound
  | some _ =>
    .ok ⟨st.uploads.filter (fun u => decide (u.id ≠ uploadId)), st.settings⟩

inductive BulkResp where
  | badRequest
  | ok (hist : History) (deleted : ℕ)
deriving DecidableEq

/-- `POST /api/delete-bulk {ids}`: counts the ids that match a stored
record, then drops every record whose id occurs in `ids`. -/
def delete_bulk (ids : List String) (st : History) : BulkResp :=
  if ids = [] then .badRequest
  else
    .ok ⟨st.uploads.filter (fun u => decide (u.id ∉ ids)), st.settings⟩
      (ids.countP (fun uid => st.uploads.any (fun u => decide (u.id = uid))))

inductive ResetResp where
  | badRequest
  | ok (hist : History) (deleted : ℕ)
deriving DecidableEq

/-- `POST /api/reset-period {from, to}`: drops the records whose
timestamp date lies in the inclusive range; a missing or empty bound is
a 400 error. -/
def reset_period (dateFrom dateTo : Option String) (st : History) : ResetResp :=
  match dateFrom, dateTo with
  | some f, some t =>
    if f = "" ∨ t = "" then .badRequest
    else
      .ok ⟨st.uploads.filter
             (fun u => !(strLe f (tsDate u.timestamp) &&
                         strLe (tsDate u.timestamp) t)), st.settings⟩
        ((st.uploads.filter
            (fun u => strLe f (tsDate u.timestamp) &&
                      strLe (tsDate u.timestamp) t)).length)
  | _, _ => .badRequest

/-! ### Settings route (`/api/settings`) -/

/-- The result of applying a Python numeric coercion (`float`/`int`) to
one field of the posted JSON: the field may be absent (the code then
coerces the default), present and coercible, or present with a value
the coercion raises on. -/
inductive Coerced (α : Type) where
  | missing
  | bad
  | val (a : α)
deriving DecidableEq

def coerceOr {α : Type} (dflt : α) : Coerced α → Option α
  | .missing => some dflt
  | .bad => none
  | .val a => some a

/-- The posted settings body, field by field. -/
structure SettingsReq where
  monthly_income : Coerced ℚ
  daily_pages : Coerced ℤ
  days_per_month : Coerced ℤ
deriving DecidableEq

/-- Outcome of `POST /api/settings`: an exception during coercion
(nothing saved), an exception in the final division (after the new
settings were already saved), or a success response with the
recomputed rate. -/
inductive SettingsResp where
  | raised
  | raisedAfterSave (hist : History)
  | ok (hist : History) (cost_per_page : ℚ)
deriving DecidableEq

/-- `POST /api/settings`. -/
def settings_post (req : SettingsReq) (st : History) : SettingsResp :=
  match coerceOr 2000 req.monthly_income, coerceOr 700 req.daily_pages,
      coerceOr 30 req.days_per_month with
  | some mi, some dp, some dpm =>
    let st' : History := ⟨st.uploads, ⟨mi, dp, dpm⟩⟩
    if dp * dpm = 0 then .raisedAfterSave st'
    else .ok st' (pyRound 6 (settingsRate ⟨mi, dp, dpm⟩))
  | _, _, _ => .raised

/-- `GET /api/settings`. -/
def settings_get (st : History) : Settings := st.settings

/-! ### Operation sequences over the persisted store -/

/-- One client operation against the store (the mutating routes the
uniqueness claim quantifies over). -/
inductive Op where
  | upload (now : PyDateTime) (files : List InFile)
  | deleteOne (uploadId : String)
  | deleteMany (ids : List String)
  | resetRange (dateFrom dateTo : Option String)
deriving DecidableEq

/-- Applying one operation: each route loads the store, runs, and an
error response leaves the persisted document as it was. -/
def applyOp (st : History) : Op → History
  | .upload now files =>
    match upload_files now files st with
    | .ok st' _ _ _ _ => st'
    | .badRequest => st
  | .deleteOne uploadId =>
    match delete_upload uploadId st with
    | .ok st' => st'
    | .notFound => st
  | .deleteMany ids =>
    match delete_bulk ids st with
    | .ok st' _ => st'
    | .badRequest => st
  | .resetRange f t =>
    match reset_period f t st with
    | .ok st' _ => st'
    | .badRequest => st

/-- Running a sequence of operations from the initial (absent-document)
state. -/
def runOps (ops : List Op) : History := ops.foldl applyOp (load_history none)

/-- Within-batch filename distinctness of one operation (upload batches
only). -/
def batchOkB : Op → Bool
  | .upload _ files => decide ((files.map (fun f => f.filename)).Nodup)
  | _ => true

/-! ### Derived definitions used in specification statements -/

/-- Membership of an upload's timestamp date in an inclusive date-range
cell, the predicate of the range-filtered queries. -/
def inCell (c : String × String) (u : Entry) : Bool :=
  strLe c.1 (tsDate u.timestamp) && strLe (tsDate u.timestamp) c.2

/-- A rational is representable with four decimal places. -/
def Is4dp (q : ℚ) : Prop := (q.den : ℤ) ∣ 10 ^ 4

instance (q : ℚ) : Decidable (Is4dp q) := by unfold Is4dp; infer_instance

/-- The grouping-rounding-sorting pipeline of the daily summary applied
to an already filtered record list (`daily_summary` is exactly this
after its range filters). -/
def dailySorted (U : List Entry) : List DayEntry :=
  ((U.foldl (fun a u => dailyAdd u a) []).map
      (fun e => { e with cost := pyRound 4 e.cost })).mergeSort
    (fun a b => strLe b.date a.date)

/-! ### Concrete sample data for instantiations -/

/-- A stored January record (cost an exact 4dp amount). -/
def recJan : Entry :=
  ⟨"aaa111", "2024-01-10", "2024-01-10T09:00:00", "jan.pdf",
    "aaa111_jan.pdf", 10, 3, 1000⟩

/-- A stored February record. -/
def recFeb : Entry :=
  ⟨"bbb222", "2024-02-10", "2024-02-10T09:15:00", "feb.pdf",
    "bbb222_feb.pdf", 20, 7, 2000⟩

/-- A sample persisted history with two records and default settings. -/
def sampleHistory : History := ⟨[recJan, recFeb], defaultSettings⟩

/-- A sample wall-clock instant. -/
def dtW : PyDateTime := ⟨2024, 3, 5, 14, 30, 7⟩

/-! ### Rounding lemmas -/

theorem rhe_intCast (m : ℤ) : rhe (m : ℚ) = m := by
  have h : ((m : ℚ) - ⌊(m : ℚ)⌋ : ℚ) = 0 := by
    rw [Int.floor_intCast]; ring
  unfold rhe
  rw [Int.floor_intCast, if_pos]
  rw [Int.floor_intCast] at h
  rw [h]; norm_num

theorem is4dp_iff (q : ℚ) : Is4dp q ↔ ∃ m : ℤ, q * 10 ^ 4 = (m : ℚ) := by
  constructor
  · rintro ⟨c, hc⟩
    refine ⟨q.num * c, ?_⟩
    have h4 : ((10 : ℚ)) ^ 4 = (q.den : ℚ) * (c : ℚ) := by
      have := congrArg (fun z : ℤ => (z : ℚ)) hc
      push_cast at this
      exact_mod_cast this
    rw [h4, ← mul_assoc, Rat.mul_den_eq_num]
    push_cast
    ring
  · rintro ⟨m, hm⟩
    have h10 : ((10 : ℚ)) ^ 4 ≠ 0 := by norm_num
    have hq : q = Rat.divInt m (10 ^ 4) := by
      rw [Rat.divInt_eq_div]
      push_cast
      field_simp
      linarith [hm]
    rw [Is4dp, hq]
    exact Rat.den_dvd m (10 ^ 4)

theorem is4dp_zero : Is4dp 0 := by decide

theorem is4dp_add {a b : ℚ} (ha : Is4dp a) (hb : Is4dp b) : Is4dp (a + b) := by
  rw [is4dp_iff] at *
  obtain ⟨m, hm⟩ := ha
  obtain ⟨n, hn⟩ := hb
  exact ⟨m + n, by push_cast; rw [add_mul, hm, hn]⟩

theorem is4dp_sum {l : List ℚ} (h : ∀ q ∈ l, Is4dp q) : Is4dp l.sum := by
  induction l with
  | nil => simpa using is4dp_zero
  | cons a l ih =>
    rw [List.sum_cons]
    exact is4dp_add (h a (by simp)) (ih fun q hq => h q (by simp [hq]))

theorem pyRound4_fix {q : ℚ} (h : Is4dp q) : pyRound 4 q = q := by
  rw [is4dp_iff] at h
  obtain ⟨m, hm⟩ := h
  have hq : q = (m : ℚ) / 10 ^ 4 := by
    field_simp
    linarith [hm]
  rw [pyRound, hm, rhe_intCast, hq]

theorem is4dp_pyRound4 (x : ℚ) : Is4dp (pyRound 4 x) := by
  rw [is4dp_iff, pyRound]
  exact ⟨rhe (x * 10 ^ 4), by field_simp⟩

/-! ### Generic partition-sum lemmas -/

theorem sum_map_ite {γ M : Type} [AddCommMonoid M] (cells : List γ)
    (p : γ → Bool) (x : M) :
    (cells.map (fun c => if p c then x else 0)).sum = (cells.countP p) • x := by
  induction cells with
  | nil => simp
  | cons c cells ih =>
    rw [List.map_cons, List.sum_cons, ih, List.countP_cons]
    by_cases h : p c = true <;> simp [h, add_nsmul, add_comm]

theorem sum_partition {γ M : Type} [AddCommMonoid M] (w : Entry → M)
    (U : List Entry) (cells : List γ) (pr : γ → Entry → Bool)
    (hpart : ∀ u ∈ U, cells.countP (fun c => pr c u) = 1) :
    (cells.map (fun c => ((U.filter (pr c)).map w).sum)).sum = (U.map w).sum := by
  induction U with
  | nil => simp
  | cons u U ih =>
    have hu : cells.countP (fun c => pr c u) = 1 := hpart u (by simp)
    have hU : ∀ v ∈ U, cells.countP (fun c => pr c v) = 1 :=
      fun v hv => hpart v (by simp [hv])
    have hsplit : ∀ c : γ,
        (((u :: U).filter (pr c)).map w).sum =
          (if pr c u then w u else 0) + ((U.filter (pr c)).map w).sum := by
      intro c
      by_cases h : pr c u = true <;> simp [List.filter_cons, h]
    calc (cells.map (fun c => (((u :: U).filter (pr c)).map w).sum)).sum
        = (cells.map (fun c =>
            (if pr c u then w u else 0) + ((U.filter (pr c)).map w).sum)).sum := by
          rw [List.map_congr_left (fun c _ => hsplit c)]
      _ = (cells.map (fun c => if pr c u then w u else 0)).sum +
            (cells.map (fun c => ((U.filter (pr c)).map w).sum)).sum := by
          rw [← List.sum_map_add]
      _ = w u + (U.map w).sum := by
          rw [sum_map_ite, hu, ih hU, one_nsmul]
      _ = ((u :: U).map w).sum := by simp

theorem sum_map_one {α : Type} (l : List α) :
    (l.map (fun _ => (1 : ℕ))).sum = l.length := by
  induction l with
  | nil => rfl
  | cons a l ih => simp [ih, Nat.add_comm]

/-! ### Range-filter normalization -/

theorem strLe_empty_left (s : String) : strLe "" s = true := rfl

theorem filterFrom_eq (d : String) (U : List Entry) :
    filterFrom (some d) U = U.filter (fun u => strLe d (tsDate u.timestamp)) := by
  by_cases h : d = ""
  · subst h
    simp [filterFrom, strLe_empty_left]
  · simp [filterFrom, h]

theorem filterTo_eq {d : String} (h : d ≠ "") (U : List Entry) :
    filterTo (some d) U = U.filter (fun u => strLe (tsDate u.timestamp) d) := by
  simp [filterTo, h]

theorem range_query (f t : String) (ht : t ≠ "") (U : List Entry) :
    filterTo (some t) (filterFrom (some f) U) = U.filter (inCell (f, t)) := by
  rw [filterFrom_eq, filterTo_eq ht, List.filter_filter]
  exact List.filter_congr (fun u _ => by simp [inCell, Bool.and_comm])

theorem filterFrom_sublist (f : Option String) (U : List Entry) :
    (filterFrom f U).Sublist U := by
  match f with
  | none => exact List.Sublist.refl U
  | some d =>
    rw [filterFrom_eq]
    exact List.filter_sublist U

theorem filterTo_sublist (t : Option String) (U : List Entry) :
    (filterTo t U).Sublist U := by
  match t with
  | none => exact List.Sublist.refl U
  | some d =>
    by_cases h : d = ""
    · subst h; exact List.Sublist.refl U
    · rw [filterTo_eq h]
      exact List.filter_sublist U

theorem filterSearch_none (U : List Entry) : filterSearch none U = U := rfl

/-! ### History-view totals -/

theorem get_history_totals (st : History) (f t : Option String) :
    (get_history st f t none).total_files =
      (filterTo t (filterFrom f st.uploads)).length ∧
    (get_history st f t none).total_pages =
      ((filterTo t (filterFrom f st.uploads)).map (fun u => u.pages)).sum ∧
    (get_history st f t none).total_cost =
      pyRound 4 (((filterTo t (filterFrom f st.uploads)).map (fun u => u.cost)).sum) := by
  have hperm :
      ((filterSearch none (filterTo t (filterFrom f st.uploads))).mergeSort
        (fun a b => strLe b.timestamp a.timestamp)).Perm
        (filterTo t (filterFrom f st.uploads)) := by
    rw [filterSearch_none]
    exact List.mergeSort_perm _ _
  refine ⟨?_, ?_, ?_⟩
  · simpa [get_history] using hperm.length_eq
  · simpa [get_history] using (hperm.map (fun u => u.pages)).sum_eq
  · simpa [get_history] using congrArg (pyRound 4) (hperm.map (fun u => u.cost)).sum_eq

/-! ### Daily-summary accumulator lemmas -/

theorem dailyAdd_files (u : Entry) (acc : List DayEntry) :
    ((dailyAdd u acc).map (fun e => e.files)).sum =
      ((acc.map (fun e => e.files)).sum) + 1 := by
  induction acc with
  | nil => simp [dailyAdd]
  | cons e acc ih =>
    by_cases h : e.date = tsDate u.timestamp
    · simp [dailyAdd, h]; omega
    · simp [dailyAdd, h, ih]; omega

theorem dailyAdd_pages (u : Entry) (acc : List DayEntry) :
    ((dailyAdd u acc).map (fun e => e.pages)).sum =
      ((acc.map (fun e => e.pages)).sum) + u.pages := by
  induction acc with
  | nil => simp [dailyAdd]
  | cons e acc ih =>
    by_cases h : e.date = tsDate u.timestamp
    · simp [dailyAdd, h]; omega
    · simp [dailyAdd, h, ih]; omega

theorem dailyAdd_cost (u : Entry) (acc : List DayEntry) :
    ((dailyAdd u acc).map (fun e => e.cost)).sum =
      ((acc.map (fun e => e.cost)).sum) + u.cost := by
  induction acc with
  | nil => simp [dailyAdd]
  | cons e acc ih =>
    by_cases h : e.date = tsDate u.timestamp
    · simp [dailyAdd, h]; ring
    · simp [dailyAdd, h, ih]; ring

theorem dailyFold_files (U : List Entry) (acc : List DayEntry) :
    ((U.foldl (fun a u => dailyAdd u a) acc).map (fun e => e.files)).sum =
      ((acc.map (fun e => e.files)).sum) + U.length := by
  induction U generalizing acc with
  | nil => simp
  | cons u U ih =>
    rw [List.foldl_cons, ih, dailyAdd_files]
    simp; omega

theorem dailyFold_pages (U : List Entry) (acc : List DayEntry) :
    ((U.foldl (fun a u => dailyAdd u a) acc).map (fun e => e.pages)).sum =
      ((acc.map (fun e => e.pages)).sum) + (U.map (fun u => u.pages)).sum := by
  induction U generalizing acc with
  | nil => simp
  | cons u U ih =>
    rw [List.foldl_cons, ih, dailyAdd_pages]
    simp; omega

theorem dailyFold_cost (U : List Entry) (acc : List DayEntry) :
    ((U.foldl (fun a u => dailyAdd u a) acc).map (fun e => e.cost)).sum =
      ((acc.map (fun e => e.cost)).sum) + (U.map (fun u => u.cost)).sum := by
  induction U generalizing acc with
  | nil => simp
  | cons u U ih =>
    rw [List.foldl_cons, ih, dailyAdd_cost]
    simp; ring

theorem dailyAdd_is4dp {u : Entry} {acc : List DayEntry} (hu : Is4dp u.cost)
    (hacc : ∀ e ∈ acc, Is4dp e.cost) :
    ∀ e ∈ dailyAdd u acc, Is4dp e.cost := by
  induction acc with
  | nil =>
    intro e he
    simp [dailyAdd] at he
    subst he
    simpa using hu
  | cons a acc ih =>
    intro e he
    by_cases h : a.date = tsDate u.timestamp
    · simp [dailyAdd, h] at he
      rcases he with he | he
      · subst he
        exact is4dp_add (hacc a (by simp)) hu
      · exact hacc e (by simp [he])
    · simp [dailyAdd, h] at he
      rcases he with he | he
      · subst he
        exact hacc e (by simp)
      · exact ih (fun x hx => hacc x (by simp [hx])) e he

theorem dailyFold_is4dp (U : List Entry) (acc : List DayEntry)
    (hU : ∀ u ∈ U, Is4dp u.cost) (hacc : ∀ e ∈ acc, Is4dp e.cost) :
    ∀ e ∈ U.foldl (fun a u => dailyAdd u a) acc, Is4dp e.cost := by
  induction U generalizing acc with
  | nil => simpa using hacc
  | cons u U ih =>
    rw [List.foldl_cons]
    exact ih (dailyAdd u acc) (fun x hx => hU x (by simp [hx]))
      (dailyAdd_is4dp (hU u (by simp)) hacc)

theorem daily_summary_eq (st : History) (f t : Option String) :
    daily_summary st f t = dailySorted (filterTo t (filterFrom f st.uploads)) := rfl

theorem dailySorted_files (U : List Entry) :
    ((dailySorted U).map (fun e => e.files)).sum = U.length := by
  have hperm := List.mergeSort_perm
    ((U.foldl (fun a u => dailyAdd u a) []).map
      (fun e => { e with cost := pyRound 4 e.cost }))
    (fun a b => strLe b.date a.date)
  rw [dailySorted, (hperm.map (fun e => e.files)).sum_eq, List.map_map]
  have hcomp : ((fun e : DayEntry => e.files) ∘
      (fun e : DayEntry => { e with cost := pyRound 4 e.cost })) =
      fun e : DayEntry => e.files := rfl
  rw [hcomp]
  simpa using dailyFold_files U []

theorem dailySorted_pages (U : List Entry) :
    ((dailySorted U).map (fun e => e.pages)).sum =
      (U.map (fun u => u.pages)).sum := by
  have hperm := List.mergeSort_perm
    ((U.foldl (fun a u => dailyAdd u a) []).map
      (fun e => { e with cost := pyRound 4 e.cost }))
    (fun a b => strLe b.date a.date)
  rw [dailySorted, (hperm.map (fun e => e.pages)).sum_eq, List.map_map]
  have hcomp : ((fun e : DayEntry => e.pages) ∘
      (fun e : DayEntry => { e with cost := pyRound 4 e.cost })) =
      fun e : DayEntry => e.pages := rfl
  rw [hcomp]
  simpa using dailyFold_pages U []

theorem dailySorted_cost (U : List Entry) (h4 : ∀ u ∈ U, Is4dp u.cost) :
    ((dailySorted U).map (fun e => e.cost)).sum =
      (U.map (fun u => u.cost)).sum := by
  have hperm := List.mergeSort_perm
    ((U.foldl (fun a u => dailyAdd u a) []).map
      (fun e => { e with cost := pyRound 4 e.cost }))
    (fun a b => strLe b.date a.date)
  rw [dailySorted, (hperm.map (fun e => e.cost)).sum_eq, List.map_map]
  have haccIs : ∀ e ∈ U.foldl (fun a u => dailyAdd u a) [], Is4dp e.cost :=
    dailyFold_is4dp U [] h4 (by simp)
  have hfix : ∀ e ∈ U.foldl (fun a u => dailyAdd u a) [],
      ((fun x : DayEntry => x.cost) ∘
        (fun x : DayEntry => { x with cost := pyRound 4 x.cost })) e =
      (fun x : DayEntry => x.cost) e := by
    intro e he
    exact pyRound4_fix (haccIs e he)
  rw [List.map_congr_left hfix]
  simpa using dailyFold_cost U []

/-! ### Monthly-summary accumulator lemmas -/

theorem monthlyAdd_files (u : Entry) (acc : List MonthAcc) :
    ((monthlyAdd u acc).map (fun e => e.files)).sum =
      ((acc.map (fun e => e.files)).sum) + 1 := by
  induction acc with
  | nil => simp [monthlyAdd]
  | cons e acc ih =>
    by_cases h : e.month = tsMonth u.timestamp
    · simp [monthlyAdd, h]; omega
    · simp [monthlyAdd, h, ih]; omega

theorem monthlyAdd_pages (u : Entry) (acc : List MonthAcc) :
    ((monthlyAdd u acc).map (fun e => e.pages)).sum =
      ((acc.map (fun e => e.pages)).sum) + u.pages := by
  induction acc with
  | nil => simp [monthlyAdd]
  | cons e acc ih =>
    by_cases h : e.month = tsMonth u.timestamp
    · simp [monthlyAdd, h]; omega
    · simp [monthlyAdd, h, ih]; omega

theorem monthlyAdd_cost (u : Entry) (acc : List MonthAcc) :
    ((monthlyAdd u acc).map (fun e => e.cost)).sum =
      ((acc.map (fun e => e.cost)).sum) + u.cost := by
  induction acc with
  | nil => simp [monthlyAdd]
  | cons e acc ih =>
    by_cases h : e.month = tsMonth u.timestamp
    · simp [monthlyAdd, h]; ring
    · simp [monthlyAdd, h, ih]; ring

theorem monthlyFold_files (U : List Entry) (acc : List MonthAcc) :
    ((U.foldl (fun a u => monthlyAdd u a) acc).map (fun e => e.files)).sum =
      ((acc.map (fun e => e.files)).sum) + U.length := by
  induction U generalizing acc with
  | nil => simp
  | cons u U ih =>
    rw [List.foldl_cons, ih, monthlyAdd_files]
    simp; omega

theorem monthlyFold_pages (U : List Entry) (acc : List MonthAcc) :
    ((U.foldl (fun a u => monthlyAdd u a) acc).map (fun e => e.pages)).sum =
      ((acc.map (fun e => e.pages)).sum) + (U.map (fun u => u.pages)).sum := by
  induction U generalizing acc with
  | nil => simp
  | cons u U ih =>
    rw [List.foldl_cons, ih, monthlyAdd_pages]
    simp; omega

theorem monthlyFold_cost (U : List Entry) (acc : List MonthAcc) :
    ((U.foldl (fun a u => monthlyAdd u a) acc).map (fun e => e.cost)).sum =
      ((acc.map (fun e => e.cost)).sum) + (U.map (fun u => u.cost)).sum := by
  induction U generalizing acc with
  | nil => simp
  | cons u U ih =>
    rw [List.foldl_cons, ih, monthlyAdd_cost]
    simp; ring

theorem monthlyAdd_is4dp {u : Entry} {acc : List MonthAcc} (hu : Is4dp u.cost)
    (hacc : ∀ e ∈ acc, Is4dp e.cost) :
    ∀ e ∈ monthlyAdd u acc, Is4dp e.cost := by
  induction acc with
  | nil =>
    intro e he
    simp [monthlyAdd] at he
    subst he
    simpa using hu
  | cons a acc ih =>
    intro e he
    by_cases h : a.month = tsMonth u.timestamp
    · simp [monthlyAdd, h] at he
      rcases he with he | he
      · subst he
        exact is4dp_add (hacc a (by simp)) hu
      · exact hacc e (by simp [he])
    · simp [monthlyAdd, h] at he
      rcases he with he | he
      · subst he
        exact hacc e (by simp)
      · exact ih (fun x hx => hacc x (by simp [hx])) e he

theorem monthlyFold_is4dp (U : List Entry) (acc : List MonthAcc)
    (hU : ∀ u ∈ U, Is4dp u.cost) (hacc : ∀ e ∈ acc, Is4dp e.cost) :
    ∀ e ∈ U.foldl (fun a u => monthlyAdd u a) acc, Is4dp e.cost := by
  induction U generalizing acc with
  | nil => simpa using hacc
  | cons u U ih =>
    rw [List.foldl_cons]
    exact ih (monthlyAdd u acc) (fun x hx => hU x (by simp [hx]))
      (monthlyAdd_is4dp (hU u (by simp)) hacc)

theorem monthly_summary_files (st : History) :
    ((monthly_summary st).map (fun e => e.files)).sum = st.uploads.length := by
  have hperm := List.mergeSort_perm
    (st.uploads.foldl (fun a u => monthlyAdd u a) [])
    (fun a b => strLe b.month a.month)
  rw [monthly_summary, List.map_map]
  have hcomp : ((fun e : MonthEntry => e.files) ∘
      (fun e : MonthAcc => (⟨e.month, e.files, e.pages, pyRound 4 e.cost,
        e.days.length⟩ : MonthEntry))) = fun e : MonthAcc => e.files := rfl
  rw [hcomp, (hperm.map (fun e => e.files)).sum_eq]
  simpa using monthlyFold_files st.uploads []

theorem monthly_summary_pages (st : History) :
    ((monthly_summary st).map (fun e => e.pages)).sum =
      (st.uploads.map (fun u => u.pages)).sum := by
  have hperm := List.mergeSort_perm
    (st.uploads.foldl (fun a u => monthlyAdd u a) [])
    (fun a b => strLe b.month a.month)
  rw [monthly_summary, List.map_map]
  have hcomp : ((fun e : MonthEntry => e.pages) ∘
      (fun e : MonthAcc => (⟨e.month, e.files, e.pages, pyRound 4 e.cost,
        e.days.length⟩ : MonthEntry))) = fun e : MonthAcc => e.pages := rfl
  rw [hcomp, (hperm.map (fun e => e.pages)).sum_eq]
  simpa using monthlyFold_pages st.uploads []

theorem monthly_summary_cost (st : History)
    (h4 : ∀ u ∈ st.uploads, Is4dp u.cost) :
    ((monthly_summary st).map (fun e => e.cost)).sum =
      (st.uploads.map (fun u => u.cost)).sum := by
  have hperm := List.mergeSort_perm
    (st.uploads.foldl (fun a u => monthlyAdd u a) [])
    (fun a b => strLe b.month a.month)
  rw [monthly_summary, List.map_map]
  have haccIs : ∀ e ∈ st.uploads.foldl (fun a u => monthlyAdd u a) [],
      Is4dp e.cost := monthlyFold_is4dp st.uploads [] h4 (by simp)
  have hsortIs : ∀ e ∈ (st.uploads.foldl (fun a u => monthlyAdd u a) []).mergeSort
      (fun a b => strLe b.month a.month), Is4dp e.cost := by
    intro e he
    exact haccIs e (hperm.mem_iff.mp he)
  have hfix : ∀ e ∈ (st.uploads.foldl (fun a u => monthlyAdd u a) []).mergeSort
      (fun a b => strLe b.month a.month),
      ((fun x : MonthEntry => x.cost) ∘
        (fun x : MonthAcc => (⟨x.month, x.files, x.pages, pyRound 4 x.cost,
          x.days.length⟩ : MonthEntry))) e = (fun x : MonthAcc => x.cost) e := by
    intro e he
    exact pyRound4_fix (hsortIs e he)
  rw [List.map_congr_left hfix, (hperm.map (fun e => e.cost)).sum_eq]
  simpa using monthlyFold_cost st.uploads []

/-! ### Upload-path lemmas -/

theorem fileStep_some {names : List String} {now : PyDateTime} {f : InFile}
    {e : Entry} (h : (fileStep names now f).1 = some e) :
    e.filename = f.filename ∧ f.filename ∉ names ∧
    e.timestamp = isoTimestamp now ∧ e.date = strftimeDate now ∧
    e.pages = f.pages ∧ e.cost = pyRound 4 ((f.pages : ℚ) * COST_PER_PAGE) ∧
    e.id = f.fileId := by
  unfold fileStep at h
  split_ifs at h with h1 h2 h3 <;> simp at h
  obtain rfl := h
  exact ⟨rfl, h2, rfl, rfl, rfl, rfl, rfl⟩

theorem processFiles_mem {names : List String} {now : PyDateTime}
    {files : List InFile} {e : Entry}
    (h : e ∈ (processFiles names now files).1) :
    ∃ f ∈ files, (fileStep names now f).1 = some e := by
  induction files with
  | nil => simp [processFiles] at h
  | cons f rest ih =>
    simp only [processFiles] at h
    rcases hstep : (fileStep names now f).1 with _ | e'
    · rw [hstep] at h
      simp at h
      obtain ⟨g, hg, hg2⟩ := ih h
      exact ⟨g, by simp [hg], hg2⟩
    · rw [hstep] at h
      simp at h
      rcases h with h | h
      · exact ⟨f, by simp, by rw [hstep, h]⟩
      · obtain ⟨g, hg, hg2⟩ := ih h
        exact ⟨g, by simp [hg], hg2⟩

theorem processFiles_filenames_sublist (names : List String)
    (now : PyDateTime) (files : List InFile) :
    ((processFiles names now files).1.map (fun e => e.filename)).Sublist
      (files.map (fun f => f.filename)) := by
  induction files with
  | nil => simp [processFiles]
  | cons f rest ih =>
    simp only [processFiles]
    rcases hstep : (fileStep names now f).1 with _ | e
    · exact ih.trans (List.sublist_cons_self _ _)
    · show (e.filename ::
          (processFiles names now rest).1.map (fun x => x.filename)).Sublist
        (f.filename :: rest.map (fun x => x.filename))
      rw [(fileStep_some hstep).1]
      exact List.Sublist.cons₂ _ ih

theorem upload_files_ok {now : PyDateTime} {files : List InFile}
    (st : History) (h : files.length ≤ MAX_FILES) :
    upload_files now files st = .ok
      ⟨st.uploads ++
        (processFiles (st.uploads.map (fun u => u.filename)) now files).1,
        st.settings⟩
      (processFiles (st.uploads.map (fun u => u.filename)) now files).2
      (((processFiles (st.uploads.map (fun u => u.filename)) now files).2.map
          resultPages).sum)
      (pyRound 4
        (((processFiles (st.uploads.map (fun u => u.filename)) now files).2.map
            resultCost).sum))
      (pyRound 6 COST_PER_PAGE) := by
  rw [upload_files, if_neg (by omega)]

/-! ### Filename uniqueness preservation -/

theorem applyOp_filename_nodup {st : History} {op : Op}
    (hst : (st.uploads.map (fun u => u.filename)).Nodup)
    (hop : batchOkB op = true) :
    ((applyOp st op).uploads.map (fun u => u.filename)).Nodup := by
  cases op with
  | upload now files =>
    by_cases hlen : files.length > MAX_FILES
    · have hbad : upload_files now files st = .badRequest := by
        rw [upload_files, if_pos hlen]
      simp only [applyOp, hbad]
      exact hst
    · have hok := @upload_files_ok now files st (by omega)
      simp only [applyOp, hok, List.map_append]
      rw [List.nodup_append]
      refine ⟨hst, ?_, ?_⟩
      · have hbatch : (files.map (fun f => f.filename)).Nodup := by
          simpa [batchOkB] using hop
        exact (processFiles_filenames_sublist _ now files).nodup hbatch
      · intro a ha hb
        simp only [List.mem_map] at hb
        obtain ⟨e, he, hea⟩ := hb
        obtain ⟨g, _, hg2⟩ := processFiles_mem he
        have hprops := fileStep_some hg2
        apply hprops.2.1
        rw [← hprops.1, hea]
        exact ha
  | deleteOne uid =>
    simp only [applyOp, delete_upload]
    rcases hfind : st.uploads.find? (fun u => decide (u.id = uid)) with _ | u
    · rw [hfind]
      exact hst
    · rw [hfind]
      exact ((List.filter_sublist _).map _).nodup hst
  | deleteMany ids =>
    simp only [applyOp, delete_bulk]
    by_cases h : ids = []
    · simp only [if_pos h]
      exact hst
    · simp only [if_neg h]
      exact ((List.filter_sublist _).map _).nodup hst
  | resetRange f t =>
    simp only [applyOp, reset_period]
    rcases f with _ | f
    · exact hst
    · rcases t with _ | t
      · exact hst
      · by_cases h : f = "" ∨ t = ""
        · simp only [if_pos h]
          exact hst
        · simp only [if_neg h]
          exact ((List.filter_sublist _).map _).nodup hst

theorem foldOps_filename_nodup (ops : List Op) (st : History)
    (hst : (st.uploads.map (fun u => u.filename)).Nodup)
    (hops : ∀ op ∈ ops, batchOkB op = true) :
    (((ops.foldl applyOp st).uploads).map (fun u => u.filename)).Nodup := by
  induction ops generalizing st with
  | nil => simpa using hst
  | cons op ops ih =>
    rw [List.foldl_cons]
    exact ih (applyOp st op)
      (applyOp_filename_nodup hst (hops op (by simp)))
      (fun op' h' => hops op' (by simp [h']))

/-! ### Counting lemmas for the delete routes -/

theorem countP_or_eq {α : Type} (l : List α) (p q : α → Bool)
    (h : ∀ a ∈ l, ¬(p a = true ∧ q a = true)) :
    l.countP (fun a => p a || q a) = l.countP p + l.countP q := by
  induction l with
  | nil => simp
  | cons a l ih =>
    rw [List.countP_cons, List.countP_cons, List.countP_cons,
      ih (fun x hx => h x (by simp [hx]))]
    by_cases hp : p a = true
    · have hq : ¬ q a = true := fun hq => h a (by simp) ⟨hp, hq⟩
      simp [hp, hq]
      omega
    · by_cases hq : q a = true <;> simp [hp, hq] <;> omega

theorem countP_eq_ite_mem {α : Type} [DecidableEq α] (l : List α) (x : α)
    (h : l.Nodup) :
    l.countP (fun a => decide (a = x)) = if x ∈ l then 1 else 0 := by
  induction l with
  | nil => simp
  | cons a l ih =>
    rw [List.nodup_cons] at h
    rw [List.countP_cons, ih h.2]
    by_cases hax : a = x
    · subst hax
      simp [h.1]
    · simp [hax, Ne.symm hax]

theorem matched_count (ids : List String) (U : List Entry)
    (hids : ids.Nodup) (hU : (U.map (fun u => u.id)).Nodup) :
    ids.countP (fun i => U.any (fun u => decide (u.id = i))) =
      U.countP (fun u => decide (u.id ∈ ids)) := by
  induction U with
  | nil => simp
  | cons u U ih =>
    rw [List.map_cons, List.nodup_cons] at hU
    rw [List.countP_cons, ← ih hU.2]
    have hsplit : ∀ i ∈ ids,
        (((u :: U).any (fun v => decide (v.id = i))) = true ↔
          ((U.any (fun v => decide (v.id = i))) || decide (i = u.id)) = true) := by
      intro i _
      simp only [List.any_cons, Bool.or_eq_true, decide_eq_true_eq]
      constructor
      · rintro (h | h)
        · exact Or.inr h.symm
        · exact Or.inl h
      · rintro (h | h)
        · exact Or.inr h
        · exact Or.inl h.symm
    have hdisj : ∀ i ∈ ids,
        ¬((U.any (fun v => decide (v.id = i)) = true) ∧
          (decide (i = u.id) = true)) := by
      rintro i _ ⟨hany, heq⟩
      simp at heq
      subst heq
      simp at hany
      obtain ⟨v, hv, hvid⟩ := hany
      exact hU.1 (by
        simp only [List.mem_map]
        exact ⟨v, hv, hvid⟩)
    rw [List.countP_congr hsplit,
      countP_or_eq ids _ _ hdisj,
      countP_eq_ite_mem ids u.id hids]
    by_cases hmem : u.id ∈ ids <;> simp [hmem]

theorem filter_not_length {α : Type} (U : List α) (p : α → Bool) :
    (U.filter (fun u => !p u)).length = U.length - U.countP p := by
  have h1 := List.length_eq_countP_add_countP p U
  have h2 : U.countP (fun a => decide (¬ p a = true)) =
      (U.filter (fun u => !p u)).length := by
    rw [List.countP_eq_length_filter]
    have heq : U.filter (fun a => decide (¬ p a = true)) =
        U.filter (fun u => !p u) :=
      List.filter_congr (fun a _ => by by_cases hp : p a = true <;> simp [hp])
    rw [heq]
  omega

/-! ### Digit-string length lemmas -/

theorem numCharsAux_len1 {fuel n : ℕ} (hf : 1 ≤ fuel) (h : n < 10) :
    (numCharsAux fuel n).length = 1 := by
  match fuel, hf with
  | fuel + 1, _ => simp [numCharsAux, h]

theorem numCharsAux_len2 {fuel n : ℕ} (hf : 2 ≤ fuel) (h1 : 10 ≤ n)
    (h2 : n < 100) : (numCharsAux fuel n).length = 2 := by
  match fuel, hf with
  | fuel + 1, _ =>
    rw [numCharsAux, if_neg (by omega), List.length_append,
      numCharsAux_len1 (by omega) (by omega)]
    rfl

theorem numCharsAux_len3 {fuel n : ℕ} (hf : 3 ≤ fuel) (h1 : 100 ≤ n)
    (h2 : n < 1000) : (numCharsAux fuel n).length = 3 := by
  match fuel, hf with
  | fuel + 1, _ =>
    rw [numCharsAux, if_neg (by omega), List.length_append,
      numCharsAux_len2 (by omega) (by omega) (by omega)]
    rfl

theorem numCharsAux_len4 {fuel n : ℕ} (hf : 4 ≤ fuel) (h1 : 1000 ≤ n)
    (h2 : n < 10000) : (numCharsAux fuel n).length = 4 := by
  match fuel, hf with
  | fuel + 1, _ =>
    rw [numCharsAux, if_neg (by omega), List.length_append,
      numCharsAux_len3 (by omega) (by omega) (by omega)]
    rfl

theorem numChars_len4 {n : ℕ} (h1 : 1000 ≤ n) (h2 : n < 10000) :
    (numChars n).length = 4 :=
  numCharsAux_len4 (by omega) h1 h2

theorem pad2_len {n : ℕ} (h : n < 100) : (pad2 n).length = 2 := by
  by_cases h1 : n < 10
  · have hl : (numChars n).length = 1 :=
      @numCharsAux_len1 (n + 1) n (by omega) h1
    rw [pad2, if_pos h1, List.length_cons, hl]
  · rw [pad2, if_neg h1]
    exact @numCharsAux_len2 (n + 1) n (by omega) (by omega) h

theorem pad4_len {n : ℕ} (h : n < 10000) : (pad4 n).length = 4 := by
  by_cases h1 : n < 10
  · have hl : (numChars n).length = 1 :=
      @numCharsAux_len1 (n + 1) n (by omega) h1
    rw [pad4, if_pos h1]
    simp [hl]
  · by_cases h2 : n < 100
    · have hl : (numChars n).length = 2 :=
        @numCharsAux_len2 (n + 1) n (by omega) (by omega) h2
      rw [pad4, if_neg h1, if_pos h2]
      simp [hl]
    · by_cases h3 : n < 1000
      · have hl : (numChars n).length = 3 :=
          @numCharsAux_len3 (n + 1) n (by omega) (by omega) h3
        rw [pad4, if_neg h1, if_neg h2, if_pos h3]
        simp [hl]
      · rw [pad4, if_neg h1, if_neg h2, if_neg h3]
        exact numChars_len4 (by omega) h

theorem pad4_eq_numChars {n : ℕ} (h : 1000 ≤ n) : pad4 n = numChars n := by
  rw [pad4, if_neg (by omega), if_neg (by omega), if_neg (by omega)]

/-- The date part of the second-precision ISO timestamp is exactly the
`%Y-%m-%d` date string, for in-range clock values. -/
theorem tsDate_isoTimestamp (dt : PyDateTime) (hy1 : 1000 ≤ dt.year)
    (hy2 : dt.year ≤ 9999) (hm : dt.month ≤ 12) (hd : dt.day ≤ 31) :
    tsDate (isoTimestamp dt) = strftimeDate dt := by
  rw [tsDate, pyTake, isoTimestamp, strftimeDate]
  have hdata : (String.mk (isoChars dt)).data = isoChars dt := rfl
  rw [hdata]
  have hsplit : isoChars dt =
      (pad4 dt.year ++ '-' :: pad2 dt.month ++ '-' :: pad2 dt.day) ++
        ('T' :: pad2 dt.hour ++ ':' :: pad2 dt.minute ++ ':' :: pad2 dt.second) := by
    rw [isoChars]
    simp [List.append_assoc]
  rw [hsplit]
  have hy : (pad4 dt.year).length = 4 := pad4_len (by omega)
  have hmo : (pad2 dt.month).length = 2 := pad2_len (by omega)
  have hdl : (pad2 dt.day).length = 2 := pad2_len (by omega)
  have hlen : (pad4 dt.year ++ '-' :: pad2 dt.month ++ '-' :: pad2 dt.day).length
      = 10 := by
    simp [List.length_append, hy, hmo, hdl]
  rw [List.take_left' hlen, pad4_eq_numChars hy1]

/-! ### Claim C9 -/

/-- C9: `load_history` never fails the caller: when the persisted
document is absent it returns the empty record list together with the
default settings {monthly_income: 2000, daily_pages: 700,
days_per_month: 30}; when the document is present it returns the
persisted records and settings unchanged. -/
theorem C9_load_history_total :
    load_history none = ⟨[], ⟨2000, 700, 30⟩⟩ ∧
    ∀ doc : History, load_history (some doc) = doc :=
  ⟨rfl, fun _ => rfl⟩

/-! ### Claim C5 -/

/-- C5: reset-period with both bounds present removes exactly the
records whose timestamp date `d` satisfies `from ≤ d ≤ to` (inclusive
both ends), leaves every other record unchanged, and returns `deleted`
equal to the number of records removed; a missing bound is a 400
error. -/
theorem C5_reset_period_spec (f t : String) (st : History)
    (hf : f ≠ "") (ht : t ≠ "") :
    (∃ st' d, reset_period (some f) (some t) st = .ok st' d ∧
      st'.uploads.Sublist st.uploads ∧
      (∀ u ∈ st.uploads, u ∈ st'.uploads ↔
        ¬(strLe f (tsDate u.timestamp) = true ∧
          strLe (tsDate u.timestamp) t = true)) ∧
      d = st.uploads.countP (fun u => inCell (f, t) u) ∧
      d = st.uploads.length - st'.uploads.length ∧
      st'.settings = st.settings) ∧
    reset_period none (some t) st = .badRequest ∧
    reset_period (some f) none st = .badRequest ∧
    reset_period none none st = .badRequest := by
  refine ⟨?_, rfl, rfl, rfl⟩
  have hno : ¬(f = "" ∨ t = "") := by
    rintro (h | h)
    · exact hf h
    · exact ht h
  refine ⟨⟨st.uploads.filter
      (fun u => !(strLe f (tsDate u.timestamp) &&
        strLe (tsDate u.timestamp) t)), st.settings⟩,
    (st.uploads.filter (fun u => strLe f (tsDate u.timestamp) &&
      strLe (tsDate u.timestamp) t)).length,
    by rw [reset_period, if_neg hno], List.filter_sublist _,
    ?_, ?_, ?_, rfl⟩
  · intro u hu
    rw [List.mem_filter]
    by_cases ha : strLe f (tsDate u.timestamp) = true <;>
      by_cases hb : strLe (tsDate u.timestamp) t = true <;>
        simp [hu, ha, hb]
  · rw [List.countP_eq_length_filter]
    rfl
  · have hflip := filter_not_length st.uploads (fun u => inCell (f, t) u)
    have hle : st.uploads.countP (fun u => inCell (f, t) u) ≤
        st.uploads.length := by
      rw [List.countP_eq_length_filter]
      exact List.length_filter_le _ _
    have hd : (st.uploads.filter (fun u => strLe f (tsDate u.timestamp) &&
        strLe (tsDate u.timestamp) t)).length =
        st.uploads.countP (fun u => inCell (f, t) u) := by
      rw [List.countP_eq_length_filter]
      rfl
    have hlen2 : (st.uploads.filter
        (fun u => !(strLe f (tsDate u.timestamp) &&
          strLe (tsDate u.timestamp) t))).length =
        st.uploads.length - st.uploads.countP (fun u => inCell (f, t) u) :=
      hflip
    rw [hd, hlen2]
    omega

/-- C5 witness: resetting January 2024 on the two-record sample store
deletes exactly the January record and reports one deletion. -/
theorem C5_reset_period_witness :
    (∃ st' d, reset_period (some "2024-01-01") (some "2024-01-31")
        sampleHistory = .ok st' d ∧
      st'.uploads.Sublist sampleHistory.uploads ∧
      (∀ u ∈ sampleHistory.uploads, u ∈ st'.uploads ↔
        ¬(strLe "2024-01-01" (tsDate u.timestamp) = true ∧
          strLe (tsDate u.timestamp) "2024-01-31" = true)) ∧
      d = sampleHistory.uploads.countP
        (fun u => inCell ("2024-01-01", "2024-01-31") u) ∧
      d = sampleHistory.uploads.length - st'.uploads.length ∧
      st'.settings = sampleHistory.settings) ∧
    reset_period none (some "2024-01-31") sampleHistory = .badRequest ∧
    reset_period (some "2024-01-01") none sampleHistory = .badRequest ∧
    reset_period none none sampleHistory = .badRequest :=
  C5_reset_period_spec "2024-01-01" "2024-01-31" sampleHistory
    (by decide) (by decide)

/-! ### Claim C6 -/

/-- C6: delete-bulk skips ids that match no stored record, removes the
record of every id that does match, and reports `deleted` equal to the
number of ids that matched a stored record (equivalently, for distinct
ids over a store with distinct ids, the number of records removed). -/
theorem C6_delete_bulk_spec (ids : List String) (st : History)
    (hne : ids ≠ []) (hids : ids.Nodup)
    (hstore : (st.uploads.map (fun u => u.id)).Nodup) :
    ∃ st' d, delete_bulk ids st = .ok st' d ∧
      (∀ u ∈ st.uploads, u ∈ st'.uploads ↔ u.id ∉ ids) ∧
      st'.uploads.Sublist st.uploads ∧
      d = (ids.filter
        (fun i => st.uploads.any (fun u => decide (u.id = i)))).length ∧
      d = st.uploads.length - st'.uploads.length ∧
      st'.settings = st.settings := by
  refine ⟨⟨st.uploads.filter (fun u => decide (u.id ∉ ids)), st.settings⟩,
    ids.countP (fun uid => st.uploads.any (fun u => decide (u.id = uid))),
    by rw [delete_bulk, if_neg hne], ?_, List.filter_sublist _,
    ?_, ?_, rfl⟩
  · intro u hu
    rw [List.mem_filter]
    by_cases hm : u.id ∈ ids <;> simp [hu, hm]
  · rw [← List.countP_eq_length_filter]
  · have hmc := matched_count ids st.uploads hids hstore
    have hfl := filter_not_length st.uploads (fun u => decide (u.id ∈ ids))
    have hle : st.uploads.countP (fun u => decide (u.id ∈ ids)) ≤
        st.uploads.length := by
      rw [List.countP_eq_length_filter]
      exact List.length_filter_le _ _
    have hst' : (st.uploads.filter (fun u => decide (u.id ∉ ids))).length =
        st.uploads.length -
          st.uploads.countP (fun u => decide (u.id ∈ ids)) := by
      have heq : st.uploads.filter (fun u => decide (u.id ∉ ids)) =
          st.uploads.filter (fun u => !(decide (u.id ∈ ids))) :=
        List.filter_congr (fun u _ => by
          by_cases hm : u.id ∈ ids <;> simp [hm])
      rw [heq, hfl]
    rw [hst', hmc]
    omega

/-- C6 witness: ids {aaa111, nonexistent, bbb222} on the two-record
sample store delete both records and report `deleted = 2`. -/
theorem C6_delete_bulk_witness :
    ∃ st' d, delete_bulk ["aaa111", "nonexistent", "bbb222"] sampleHistory =
        .ok st' d ∧
      (∀ u ∈ sampleHistory.uploads, u ∈ st'.uploads ↔
        u.id ∉ ["aaa111", "nonexistent", "bbb222"]) ∧
      st'.uploads.Sublist sampleHistory.uploads ∧
      d = (["aaa111", "nonexistent", "bbb222"].filter
        (fun i => sampleHistory.uploads.any (fun u => decide (u.id = i)))).length ∧
      d = sampleHistory.uploads.length - st'.uploads.length ∧
      st'.settings = sampleHistory.settings :=
  C6_delete_bulk_spec ["aaa111", "nonexistent", "bbb222"] sampleHistory
    (by decide) (by decide) (by decide)

/-! ### Claim C7 -/

/-- C7: deleting by id removes exactly the matching record and keeps
every other record; an unknown id yields not-found and the store is
left untouched (the route returns before anything is saved). -/
theorem C7_delete_upload_spec (uid : String) (st : History)
    (hstore : (st.uploads.map (fun u => u.id)).Nodup) :
    ((∀ u ∈ st.uploads, u.id ≠ uid) → delete_upload uid st = .notFound) ∧
    ((∃ u ∈ st.uploads, u.id = uid) →
      ∃ st', delete_upload uid st = .ok st' ∧
        st'.uploads.Sublist st.uploads ∧
        st'.uploads.length = st.uploads.length - 1 ∧
        (∀ u ∈ st.uploads, u ∈ st'.uploads ↔ u.id ≠ uid) ∧
        st'.settings = st.settings) := by
  constructor
  · intro hnone
    have hfind : st.uploads.find? (fun u => decide (u.id = uid)) = none := by
      rw [List.find?_eq_none]
      intro u hu
      simp [hnone u hu]
    rw [delete_upload, hfind]
  · intro hsome
    obtain ⟨u0, hu0, hid0⟩ := hsome
    have hmem : uid ∈ st.uploads.map (fun u => u.id) := by
      rw [List.mem_map]
      exact ⟨u0, hu0, hid0⟩
    rcases hfind : st.uploads.find? (fun u => decide (u.id = uid)) with _ | v
    · rw [List.find?_eq_none] at hfind
      exact absurd (by simpa using hid0) (by simpa using hfind u0 hu0)
    · refine ⟨⟨st.uploads.filter (fun u => decide (u.id ≠ uid)), st.settings⟩,
        by rw [delete_upload, hfind], List.filter_sublist _,
        ?_, ?_, rfl⟩
      · have hcount : st.uploads.countP (fun u => decide (u.id = uid)) = 1 := by
          have hmapc := List.countP_map (fun s => decide (s = uid))
            (fun u : Entry => u.id) st.uploads
          have hite := countP_eq_ite_mem (st.uploads.map (fun u => u.id))
            uid hstore
          rw [if_pos hmem] at hite
          rw [hite] at hmapc
          exact hmapc.symm
        have hfl := filter_not_length st.uploads
          (fun u => decide (u.id = uid))
        have heq : st.uploads.filter (fun u => decide (u.id ≠ uid)) =
            st.uploads.filter (fun u => !(decide (u.id = uid))) :=
          List.filter_congr (fun u _ => by
            by_cases hm : u.id = uid <;> simp [hm])
        rw [heq, hfl, hcount]
      · intro u hu
        rw [List.mem_filter]
        by_cases hm : u.id = uid <;> simp [hu, hm]

/-- C7 witness: deleting id aaa111 from the two-record sample store
removes exactly the January record; the first conjunct also covers the
not-found branch of the route. -/
theorem C7_delete_upload_witness :
    ((∀ u ∈ sampleHistory.uploads, u.id ≠ "aaa111") →
      delete_upload "aaa111" sampleHistory = .notFound) ∧
    ((∃ u ∈ sampleHistory.uploads, u.id = "aaa111") →
      ∃ st', delete_upload "aaa111" sampleHistory = .ok st' ∧
        st'.uploads.Sublist sampleHistory.uploads ∧
        st'.uploads.length = sampleHistory.uploads.length - 1 ∧
        (∀ u ∈ sampleHistory.uploads, u ∈ st'.uploads ↔ u.id ≠ "aaa111") ∧
        st'.settings = sampleHistory.settings) :=
  C7_delete_upload_spec "aaa111" sampleHistory (by decide)

/-! ### Claim C3 -/

/-- C3 counterexample: the settings route performs no positivity
validation.  Posting monthly_income = -5 (coercible, not positive) is
not rejected: the route answers success, persists the non-positive
value, and returns a negative cost_per_page. -/
theorem C3_counterexample_negative_income_accepted :
    settings_post ⟨.val (-5), .missing, .missing⟩ (load_history none) =
      .ok ⟨[], ⟨-5, 700, 30⟩⟩ (pyRound 6 (settingsRate ⟨-5, 700, 30⟩)) ∧
    pyRound 6 (settingsRate ⟨-5, 700, 30⟩) < 0 := by
  constructor
  · rfl
  · norm_num [pyRound, rhe, settingsRate]

/-- C3 amended: a POST to /api/settings raises an unhandled error (not
a validation message) when a present field is not coercible to its
numeric type; it performs no positivity validation: any coercible
values (missing fields defaulting to 2000/700/30) whose
daily_pages × days_per_month is nonzero are accepted, persisted with
the uploads untouched, and answered with the recomputed cost_per_page
rounded to six decimal places. -/
theorem C3_amended_settings_validation (req : SettingsReq) (st : History) :
    (∀ mi dp dpm, coerceOr 2000 req.monthly_income = some mi →
      coerceOr 700 req.daily_pages = some dp →
      coerceOr 30 req.days_per_month = some dpm → dp * dpm ≠ 0 →
      settings_post req st =
        .ok ⟨st.uploads, ⟨mi, dp, dpm⟩⟩
          (pyRound 6 (settingsRate ⟨mi, dp, dpm⟩))) ∧
    ((req.monthly_income = .bad ∨ req.daily_pages = .bad ∨
        req.days_per_month = .bad) → settings_post req st = .raised) := by
  obtain ⟨mi0, dp0, dpm0⟩ := req
  constructor
  · intro mi dp dpm hmi hdp hdpm hnz
    unfold settings_post
    rw [hmi, hdp, hdpm]
    simp [hnz]
  · rintro (h | h | h)
    · subst h
      rfl
    · subst h
      cases mi0 <;> rfl
    · subst h
      cases mi0 <;> cases dp0 <;> rfl

/-- C3 witness: a fully coercible positive request {3000, 500, 20} is
accepted, persisted and answered with its recomputed rate. -/
theorem C3_amended_settings_witness :
    settings_post ⟨.val 3000, .val 500, .val 20⟩ (load_history none) =
      .ok ⟨[], ⟨3000, 500, 20⟩⟩ (pyRound 6 (settingsRate ⟨3000, 500, 20⟩)) :=
  (C3_amended_settings_validation ⟨.val 3000, .val 500, .val 20⟩
      (load_history none)).1 3000 500 20 rfl rfl rfl (by decide)

/-! ### Claim C2 -/

/-- C2 counterexample: a single upload batch containing two files that
both carry the filename a.pdf passes the duplicate check for both
(the check only consults the snapshot of filenames stored before the
batch), so the store reaches a state with two live records of the same
filename. -/
theorem C2_counterexample_same_batch_duplicate :
    ¬ (((runOps [.upload ⟨2024, 3, 5, 14, 30, 7⟩
        [⟨"a.pdf", "id0000000001", 100, 1⟩,
         ⟨"a.pdf", "id0000000002", 100, 2⟩]]).uploads.map
          (fun u => u.filename)).Nodup) := by decide

/-- C2 amended: over every sequence of upload and delete operations
from the empty store in which each single upload batch carries
pairwise-distinct filenames, no two live records share a filename. -/
theorem C2_amended_filename_unique (ops : List Op)
    (h : ∀ op ∈ ops, batchOkB op = true) :
    (((runOps ops).uploads).map (fun u => u.filename)).Nodup :=
  foldOps_filename_nodup ops (load_history none) (by simp [load_history]) h

/-- C2 witness: a three-operation run (upload of two distinct
filenames, a bulk delete, an upload of one more file) keeps filenames
unique. -/
theorem C2_amended_filename_unique_witness :
    (((runOps [.upload ⟨2024, 3, 5, 14, 30, 7⟩
          [⟨"a.pdf", "id0000000001", 100, 1⟩,
           ⟨"b.pdf", "id0000000002", 100, 2⟩],
        .deleteMany ["id0000000001"],
        .upload ⟨2024, 3, 6, 9, 0, 0⟩
          [⟨"c.pdf", "id0000000003", 100, 3⟩]]).uploads).map
      (fun u => u.filename)).Nodup :=
  C2_amended_filename_unique _ (by decide)

/-! ### Claim C10 -/

/-- C10: every record created by one non-rejected upload call carries
the identical timestamp (the single `datetime.now()` snapshot taken
before the loop), and its `date` field equals the first ten characters
of that timestamp, for any in-range clock value. -/
theorem C10_batch_single_timestamp (now : PyDateTime) (files : List InFile)
    (st : History) (hy1 : 1000 ≤ now.year) (hy2 : now.year ≤ 9999)
    (hm : now.month ≤ 12) (hd : now.day ≤ 31)
    (hlen : files.length ≤ MAX_FILES) :
    ∃ newEntries results tp tc cpp,
      upload_files now files st =
        .ok ⟨st.uploads ++ newEntries, st.settings⟩ results tp tc cpp ∧
      ∀ e ∈ newEntries,
        e.timestamp = isoTimestamp now ∧ e.date = strftimeDate now ∧
        e.date = tsDate e.timestamp := by
  refine ⟨(processFiles (st.uploads.map (fun u => u.filename)) now files).1,
    _, _, _, _, upload_files_ok st hlen, ?_⟩
  intro e he
  obtain ⟨f, _, hf⟩ := processFiles_mem he
  have hp := fileStep_some hf
  refine ⟨hp.2.2.1, hp.2.2.2.1, ?_⟩
  rw [hp.2.2.2.1, hp.2.2.1]
  exact (tsDate_isoTimestamp now hy1 hy2 hm hd).symm

/-- C10 witness: a concrete two-file batch at 2024-03-05T14:30:07. -/
theorem C10_batch_single_timestamp_witness :
    ∃ newEntries results tp tc cpp,
      upload_files dtW
          [⟨"w1.pdf", "idw1", 100, 1⟩, ⟨"w2.pdf", "idw2", 200, 2⟩]
          sampleHistory =
        .ok ⟨sampleHistory.uploads ++ newEntries, sampleHistory.settings⟩
          results tp tc cpp ∧
      ∀ e ∈ newEntries,
        e.timestamp = isoTimestamp dtW ∧ e.date = strftimeDate dtW ∧
        e.date = tsDate e.timestamp :=
  C10_batch_single_timestamp dtW
    [⟨"w1.pdf", "idw1", 100, 1⟩, ⟨"w2.pdf", "idw2", 200, 2⟩]
    sampleHistory (by decide) (by decide) (by decide) (by decide) (by decide)

/-! ### Singleton-upload evaluation helper -/

theorem upload_singleton {now : PyDateTime} {f : InFile} (st : History)
    {e : Entry}
    (hstep : (fileStep (st.uploads.map (fun u => u.filename)) now f).1 =
      some e) :
    ∃ rs tp tc, upload_files now [f] st =
      .ok ⟨st.uploads ++ [e], st.settings⟩ rs tp tc
        (pyRound 6 COST_PER_PAGE) := by
  have hok := @upload_files_ok now [f] st
    (by simp [MAX_FILES])
  have hP : (processFiles (st.uploads.map (fun u => u.filename)) now [f]).1 =
      [e] := by
    simp only [processFiles, hstep]
  rw [hP] at hok
  exact ⟨_, _, _, hok⟩

/-! ### Claim C1 -/

/-- C1 (evaluation at the failing input): after a successful settings
POST of monthly_income = 4000 (new rate 4000/21000 ≈ 0.190476, as the
settings route itself answers), a subsequent one-page upload is still
costed with the module constant `COST_PER_PAGE` (2000/21000: cost
0.0952, and the response's cost_per_page is still 0.095238), not with
the persisted settings' rate (which would give 0.1905).  The
pre-existing records are, as the claim states, unchanged — the bug is
only in the rate used by subsequent uploads. -/
theorem C1_upload_rate_ignores_new_settings :
    settings_post ⟨.val 4000, .missing, .missing⟩ sampleHistory =
      .ok ⟨sampleHistory.uploads, ⟨4000, 700, 30⟩⟩
        (pyRound 6 (settingsRate ⟨4000, 700, 30⟩)) ∧
    pyRound 6 (settingsRate ⟨4000, 700, 30⟩) = 190476 / 10 ^ 6 ∧
    (∃ e rs tp tc,
      upload_files dtW [⟨"new.pdf", "idNew", 100, 1⟩]
          ⟨sampleHistory.uploads, ⟨4000, 700, 30⟩⟩ =
        .ok ⟨sampleHistory.uploads ++ [e], ⟨4000, 700, 30⟩⟩ rs tp tc
          (pyRound 6 COST_PER_PAGE) ∧
      e.pages = 1 ∧
      e.cost = 952 / 10000 ∧
      pyRound 4 ((e.pages : ℚ) * settingsRate ⟨4000, 700, 30⟩) =
        1905 / 10000) ∧
    (952 : ℚ) / 10000 ≠ 1905 / 10000 ∧
    pyRound 6 COST_PER_PAGE = 95238 / 10 ^ 6 := by
  refine ⟨rfl, by norm_num [pyRound, rhe, settingsRate], ?_, by norm_num,
    by norm_num [pyRound, rhe, COST_PER_PAGE]⟩
  rcases hstep : (fileStep
      ((⟨sampleHistory.uploads, ⟨4000, 700, 30⟩⟩ : History).uploads.map
        (fun u => u.filename)) dtW ⟨"new.pdf", "idNew", 100, 1⟩).1 with _ | e
  · exact absurd hstep (by decide)
  · obtain ⟨rs, tp, tc, hup⟩ := upload_singleton _ hstep
    have hp := fileStep_some hstep
    refine ⟨e, rs, tp, tc, hup, hp.2.2.2.2.1, ?_, ?_⟩
    · rw [hp.2.2.2.2.2.1]
      norm_num [pyRound, rhe, COST_PER_PAGE]
    · rw [hp.2.2.2.2.1]
      norm_num [pyRound, rhe, settingsRate]

/-! ### Claim C4 -/

/-- C4 (evaluation at the failing input): with persisted settings
{2000, 100, 10} (settings rate 2 per page), a validated three-page
upload is costed `round(3 × COST_PER_PAGE, 4) = 0.2857` from the
module constant, not `round(3 × 2, 4) = 6` from the settings in force
at upload time, so `cost = round(pages × settings_rate, 4)` fails. -/
theorem C4_cost_rate_not_from_settings :
    settings_post ⟨.missing, .val 100, .val 10⟩ (load_history none) =
      .ok ⟨[], ⟨2000, 100, 10⟩⟩ (pyRound 6 (settingsRate ⟨2000, 100, 10⟩)) ∧
    settingsRate ⟨2000, 100, 10⟩ = 2 ∧
    ∃ e rs tp tc,
      upload_files dtW [⟨"c4.pdf", "idc4", 50, 3⟩] ⟨[], ⟨2000, 100, 10⟩⟩ =
        .ok ⟨[e], ⟨2000, 100, 10⟩⟩ rs tp tc (pyRound 6 COST_PER_PAGE) ∧
      e.pages = 3 ∧
      e.cost = 2857 / 10000 ∧
      pyRound 4 ((e.pages : ℚ) * settingsRate ⟨2000, 100, 10⟩) = 6 ∧
      e.cost ≠ pyRound 4 ((e.pages : ℚ) * settingsRate ⟨2000, 100, 10⟩) := by
  refine ⟨rfl, by norm_num [settingsRate], ?_⟩
  rcases hstep : (fileStep
      ((⟨[], ⟨2000, 100, 10⟩⟩ : History).uploads.map
        (fun u => u.filename)) dtW ⟨"c4.pdf", "idc4", 50, 3⟩).1 with _ | e
  · exact absurd hstep (by decide)
  · obtain ⟨rs, tp, tc, hup⟩ := upload_singleton _ hstep
    have hp := fileStep_some hstep
    have hcost : e.cost = 2857 / 10000 := by
      rw [hp.2.2.2.2.2.1]
      norm_num [pyRound, rhe, COST_PER_PAGE]
    have hclaim : pyRound 4 ((e.pages : ℚ) * settingsRate ⟨2000, 100, 10⟩) =
        6 := by
      rw [hp.2.2.2.2.1]
      norm_num [pyRound, rhe, settingsRate]
    refine ⟨e, rs, tp, tc, hup, hp.2.2.2.2.1, hcost, hclaim, ?_⟩
    rw [hcost, hclaim]
    norm_num

/-! ### Claim C8 -/

/-- C8: for every record store (records carrying 4dp costs, as the
data model stamps them) and every partition of it into non-empty,
non-overlapping, exhaustive date-range cells, the files/pages/cost
totals of the full history view equal the sums of the range-filtered
partial history queries over the cells; the daily-summary totals per
cell sum to the full daily-summary totals; and the monthly-summary
totals and the all-time period statistics agree with the same
partition sums. -/
theorem C8_partition_consistency (st : History)
    (cells : List (String × String))
    (h4 : ∀ u ∈ st.uploads, Is4dp u.cost)
    (hcells : ∀ c ∈ cells, c.1 ≠ "" ∧ c.2 ≠ "")
    (hpart : ∀ u ∈ st.uploads, cells.countP (fun c => inCell c u) = 1) :
    ((cells.map (fun c =>
        (get_history st (some c.1) (some c.2) none).total_files)).sum =
      (get_history st none none none).total_files) ∧
    ((cells.map (fun c =>
        (get_history st (some c.1) (some c.2) none).total_pages)).sum =
      (get_history st none none none).total_pages) ∧
    ((cells.map (fun c =>
        (get_history st (some c.1) (some c.2) none).total_cost)).sum =
      (get_history st none none none).total_cost) ∧
    ((cells.map (fun c =>
        ((daily_summary st (some c.1) (some c.2)).map
          (fun e => e.files)).sum)).sum =
      ((daily_summary st none none).map (fun e => e.files)).sum) ∧
    ((cells.map (fun c =>
        ((daily_summary st (some c.1) (some c.2)).map
          (fun e => e.pages)).sum)).sum =
      ((daily_summary st none none).map (fun e => e.pages)).sum) ∧
    ((cells.map (fun c =>
        ((daily_summary st (some c.1) (some c.2)).map
          (fun e => e.cost)).sum)).sum =
      ((daily_summary st none none).map (fun e => e.cost)).sum) ∧
    (((monthly_summary st).map (fun e => e.files)).sum =
      (cells.map (fun c =>
        (get_history st (some c.1) (some c.2) none).total_files)).sum) ∧
    (((monthly_summary st).map (fun e => e.pages)).sum =
      (cells.map (fun c =>
        (get_history st (some c.1) (some c.2) none).total_pages)).sum) ∧
    (((monthly_summary st).map (fun e => e.cost)).sum =
      (cells.map (fun c =>
        (get_history st (some c.1) (some c.2) none).total_cost)).sum) ∧
    (∀ today weekAgo monthStart,
      (get_stats st today weekAgo monthStart).total.files =
        (cells.map (fun c =>
          (get_history st (some c.1) (some c.2) none).total_files)).sum ∧
      (get_stats st today weekAgo monthStart).total.pages =
        (cells.map (fun c =>
          (get_history st (some c.1) (some c.2) none).total_pages)).sum ∧
      (get_stats st today weekAgo monthStart).total.cost =
        (cells.map (fun c =>
          (get_history st (some c.1) (some c.2) none).total_cost)).sum) := by
  -- the filtered partial query over a cell is the `inCell` filter
  have hq : ∀ c ∈ cells,
      filterTo (some c.2) (filterFrom (some c.1) st.uploads) =
        st.uploads.filter (inCell c) := by
    intro c hc
    exact range_query c.1 c.2 (hcells c hc).2 st.uploads
  -- 4dp facts
  have hFmem : ∀ c : String × String,
      ∀ u ∈ st.uploads.filter (inCell c), Is4dp u.cost :=
    fun c u hu => h4 u (List.mem_filter.mp hu).1
  have hcellSum4 : ∀ c : String × String,
      Is4dp (((st.uploads.filter (inCell c)).map (fun u => u.cost)).sum) := by
    intro c
    refine is4dp_sum ?_
    intro q hqq
    obtain ⟨u, hu, rfl⟩ := List.mem_map.mp hqq
    exact hFmem c u hu
  have hU4 : Is4dp ((st.uploads.map (fun u => u.cost)).sum) := by
    refine is4dp_sum ?_
    intro q hqq
    obtain ⟨u, hu, rfl⟩ := List.mem_map.mp hqq
    exact h4 u hu
  have hUfix : pyRound 4 ((st.uploads.map (fun u => u.cost)).sum) =
      (st.uploads.map (fun u => u.cost)).sum := pyRound4_fix hU4
  -- partition sums over the raw filters
  have hfiles : (cells.map
      (fun c => (st.uploads.filter (inCell c)).length)).sum =
      st.uploads.length := by
    have h1 : ∀ c ∈ cells, (st.uploads.filter (inCell c)).length =
        ((st.uploads.filter (inCell c)).map (fun _ => (1 : ℕ))).sum :=
      fun c _ => (sum_map_one _).symm
    rw [List.map_congr_left h1,
      sum_partition (fun _ => (1 : ℕ)) st.uploads cells inCell hpart,
      sum_map_one]
  have hpages : (cells.map (fun c =>
      ((st.uploads.filter (inCell c)).map (fun u => u.pages)).sum)).sum =
      (st.uploads.map (fun u => u.pages)).sum :=
    sum_partition (fun u => u.pages) st.uploads cells inCell hpart
  have hcost : (cells.map (fun c =>
      ((st.uploads.filter (inCell c)).map (fun u => u.cost)).sum)).sum =
      (st.uploads.map (fun u => u.cost)).sum :=
    sum_partition (fun u => u.cost) st.uploads cells inCell hpart
  -- per-cell history totals in filter form
  have hcellFiles : ∀ c ∈ cells,
      (get_history st (some c.1) (some c.2) none).total_files =
        (st.uploads.filter (inCell c)).length := by
    intro c hc
    rw [(get_history_totals st (some c.1) (some c.2)).1, hq c hc]
  have hcellPages : ∀ c ∈ cells,
      (get_history st (some c.1) (some c.2) none).total_pages =
        ((st.uploads.filter (inCell c)).map (fun u => u.pages)).sum := by
    intro c hc
    rw [(get_history_totals st (some c.1) (some c.2)).2.1, hq c hc]
  have hcellCost : ∀ c ∈ cells,
      (get_history st (some c.1) (some c.2) none).total_cost =
        ((st.uploads.filter (inCell c)).map (fun u => u.cost)).sum := by
    intro c hc
    rw [(get_history_totals st (some c.1) (some c.2)).2.2, hq c hc]
    exact pyRound4_fix (hcellSum4 c)
  -- full history totals
  have hfullFiles : (get_history st none none none).total_files =
      st.uploads.length := (get_history_totals st none none).1
  have hfullPages : (get_history st none none none).total_pages =
      (st.uploads.map (fun u => u.pages)).sum :=
    (get_history_totals st none none).2.1
  have hfullCost : (get_history st none none none).total_cost =
      (st.uploads.map (fun u => u.cost)).sum := by
    rw [(get_history_totals st none none).2.2]
    exact hUfix
  -- per-cell and full daily totals
  have hcellDailyFiles : ∀ c ∈ cells,
      ((daily_summary st (some c.1) (some c.2)).map (fun e => e.files)).sum =
        (st.uploads.filter (inCell c)).length := by
    intro c hc
    rw [daily_summary_eq, hq c hc, dailySorted_files]
  have hcellDailyPages : ∀ c ∈ cells,
      ((daily_summary st (some c.1) (some c.2)).map (fun e => e.pages)).sum =
        ((st.uploads.filter (inCell c)).map (fun u => u.pages)).sum := by
    intro c hc
    rw [daily_summary_eq, hq c hc, dailySorted_pages]
  have hcellDailyCost : ∀ c ∈ cells,
      ((daily_summary st (some c.1) (some c.2)).map (fun e => e.cost)).sum =
        ((st.uploads.filter (inCell c)).map (fun u => u.cost)).sum := by
    intro c hc
    rw [daily_summary_eq, hq c hc, dailySorted_cost _ (hFmem c)]
  have hfullDailyFiles :
      ((daily_summary st none none).map (fun e => e.files)).sum =
        st.uploads.length := by
    rw [daily_summary_eq]
    exact dailySorted_files st.uploads
  have hfullDailyPages :
      ((daily_summary st none none).map (fun e => e.pages)).sum =
        (st.uploads.map (fun u => u.pages)).sum := by
    rw [daily_summary_eq]
    exact dailySorted_pages st.uploads
  have hfullDailyCost :
      ((daily_summary st none none).map (fun e => e.cost)).sum =
        (st.uploads.map (fun u => u.cost)).sum := by
    rw [daily_summary_eq]
    exact dailySorted_cost st.uploads h4
  refine ⟨?_, ?_, ?_, ?_, ?_, ?_, ?_, ?_, ?_, ?_⟩
  · rw [List.map_congr_left hcellFiles, hfullFiles]
    exact hfiles
  · rw [List.map_congr_left hcellPages, hfullPages]
    exact hpages
  · rw [List.map_congr_left hcellCost, hfullCost]
    exact hcost
  · rw [List.map_congr_left hcellDailyFiles, hfullDailyFiles]
    exact hfiles
  · rw [List.map_congr_left hcellDailyPages, hfullDailyPages]
    exact hpages
  · rw [List.map_congr_left hcellDailyCost, hfullDailyCost]
    exact hcost
  · rw [List.map_congr_left hcellFiles, monthly_summary_files]
    exact hfiles.symm
  · rw [List.map_congr_left hcellPages, monthly_summary_pages]
    exact hpages.symm
  · rw [List.map_congr_left hcellCost, monthly_summary_cost st h4]
    exact hcost.symm
  · intro today weekAgo monthStart
    refine ⟨?_, ?_, ?_⟩
    · have hs : (get_stats st today weekAgo monthStart).total.files =
          st.uploads.length := rfl
      rw [hs, List.map_congr_left hcellFiles]
      exact hfiles.symm
    · have hs : (get_stats st today weekAgo monthStart).total.pages =
          (st.uploads.map (fun u => u.pages)).sum := rfl
      rw [hs, List.map_congr_left hcellPages]
      exact hpages.symm
    · have hs : (get_stats st today weekAgo monthStart).total.cost =
          pyRound 4 ((st.uploads.map (fun u => u.cost)).sum) := rfl
      rw [hs, hUfix, List.map_congr_left hcellCost]
      exact hcost.symm

/-- C8 witness: the two-record sample store partitioned into January
2024 and the rest of 2024. -/
theorem C8_partition_consistency_witness :
    (([("2024-01-01", "2024-01-31"), ("2024-02-01", "2024-12-31")].map
        (fun c => (get_history sampleHistory (some c.1) (some c.2)
          none).total_files)).sum =
      (get_history sampleHistory none none none).total_files) ∧
    (([("2024-01-01", "2024-01-31"), ("2024-02-01", "2024-12-31")].map
        (fun c => (get_history sampleHistory (some c.1) (some c.2)
          none).total_pages)).sum =
      (get_history sampleHistory none none none).total_pages) ∧
    (([("2024-01-01", "2024-01-31"), ("2024-02-01", "2024-12-31")].map
        (fun c => (get_history sampleHistory (some c.1) (some c.2)
          none).total_cost)).sum =
      (get_history sampleHistory none none none).total_cost) ∧
    (([("2024-01-01", "2024-01-31"), ("2024-02-01", "2024-12-31")].map
        (fun c => ((daily_summary sampleHistory (some c.1) (some c.2)).map
          (fun e => e.files)).sum)).sum =
      ((daily_summary sampleHistory none none).map (fun e => e.files)).sum) ∧
    (([("2024-01-01", "2024-01-31"), ("2024-02-01", "2024-12-31")].map
        (fun c => ((daily_summary sampleHistory (some c.1) (some c.2)).map
          (fun e => e.pages)).sum)).sum =
      ((daily_summary sampleHistory none none).map (fun e => e.pages)).sum) ∧
    (([("2024-01-01", "2024-01-31"), ("2024-02-01", "2024-12-31")].map
        (fun c => ((daily_summary sampleHistory (some c.1) (some c.2)).map
          (fun e => e.cost)).sum)).sum =
      ((daily_summary sampleHistory none none).map (fun e => e.cost)).sum) ∧
    (((monthly_summary sampleHistory).map (fun e => e.files)).sum =
      ([("2024-01-01", "2024-01-31"), ("2024-02-01", "2024-12-31")].map
        (fun c => (get_history sampleHistory (some c.1) (some c.2)
          none).total_files)).sum) ∧
    (((monthly_summary sampleHistory).map (fun e => e.pages)).sum =
      ([("2024-01-01", "2024-01-31"), ("2024-02-01", "2024-12-31")].map
        (fun c => (get_history sampleHistory (some c.1) (some c.2)
          none).total_pages)).sum) ∧
    (((monthly_summary sampleHistory).map (fun e => e.cost)).sum =
      ([("2024-01-01", "2024-01-31"), ("2024-02-01", "2024-12-31")].map
        (fun c => (get_history sampleHistory (some c.1) (some c.2)
          none).total_cost)).sum) ∧
    (∀ today weekAgo monthStart,
      (get_stats sampleHistory today weekAgo monthStart).total.files =
        ([("2024-01-01", "2024-01-31"), ("2024-02-01", "2024-12-31")].map
          (fun c => (get_history sampleHistory (some c.1) (some c.2)
            none).total_files)).sum ∧
      (get_stats sampleHistory today weekAgo monthStart).total.pages =
        ([("2024-01-01", "2024-01-31"), ("2024-02-01", "2024-12-31")].map
          (fun c => (get_history sampleHistory (some c.1) (some c.2)
            none).total_pages)).sum ∧
      (get_stats sampleHistory today weekAgo monthStart).total.cost =
        ([("2024-01-01", "2024-01-31"), ("2024-02-01", "2024-12-31")].map
          (fun c => (get_history sampleHistory (some c.1) (some c.2)
            none).total_cost)).sum) :=
  C8_partition_consistency sampleHistory
    [("2024-01-01", "2024-01-31"), ("2024-02-01", "2024-12-31")]
    (by decide) (by decide) (by decide)

end PDFScanner

